import Mathlib

/-!
Verification of the resumable large-file upload system
(`backend/src/routes/upload.ts`, `backend/src/services/fileService.ts`,
client-side `Uploader`).

The server state (Prisma `Upload` and `Chunk` tables, scratch files on
disk) is embedded as an explicit record `Db`; each Express route handler
becomes a pure function from request data and `Db` to a response and an
updated `Db`.  The client-side `Uploader` class is embedded as a
small-step system over a worker-pool state, scheduled nondeterministically.
-/

namespace Uploader

/-- Upload session status, from the Prisma `Status` enum used in
`routes/upload.ts`. -/
inductive Status where
  | UPLOADING
  | PROCESSING
  | COMPLETED
  | FAILED
deriving DecidableEq, Repr

/-- Chunk record status: chunk rows are only ever written as `UPLOADING`
(on upsert) or `COMPLETED` (after the byte write). -/
inductive ChunkDbStatus where
  | UPLOADING
  | COMPLETED
deriving DecidableEq, Repr

/-- One row of the `Upload` table. `id` is the opaque unique identifier
(modelled as a `Nat` drawn from `Db.nextId`), `createdAt` a millisecond
timestamp. -/
structure UploadSession where
  id : Nat
  filename : String
  totalSize : Nat
  totalChunks : Nat
  status : Status
  finalHash : Option String
  createdAt : Nat
deriving DecidableEq, Repr

/-- One row of the `Chunk` table, keyed by `(uploadId, chunkIndex)`. -/
structure ChunkRec where
  uploadId : Nat
  chunkIndex : Nat
  status : ChunkDbStatus
deriving DecidableEq, Repr

/-- A scratch file as a byte map: position to byte.  `none` means the
position has never been written. -/
def ByteFile := Nat → Option Nat

/-- The file with no bytes written. -/
def emptyFile : ByteFile := fun _ => none

/-- `fileHandle.write(buffer, 0, buffer.length, offset)` from
`fileService.writeChunk`: place `bytes` at positions
`offset, offset+1, ...`, leaving every byte outside
`[offset, offset + bytes.length)` untouched. -/
def writeAt (f : ByteFile) (offset : Nat) (bytes : List Nat) : ByteFile :=
  fun p =>
    if offset ≤ p then
      match bytes[p - offset]? with
      | some b => some b
      | none => f p
    else f p

/-- The fixed chunk size shared by client and server:
`const CHUNK_SIZE = 5 * 1024 * 1024`. -/
def CHUNK_SIZE : Nat := 5 * 1024 * 1024

/-- A chunk write as performed by the `/chunk` handler: the offset is
`chunkIndex * CHUNK_SIZE`. -/
def writeChunkAt (f : ByteFile) (i : Nat) (bytes : List Nat) : ByteFile :=
  writeAt f (i * CHUNK_SIZE) bytes

/-- Perform a sequence of chunk writes (index, payload) left to right. -/
def applyWrites (ws : List (Nat × List Nat)) (f : ByteFile) : ByteFile :=
  ws.foldl (fun g w => writeChunkAt g w.1 w.2) f

/-- Bytes outside the written range are untouched. -/
theorem writeAt_outside (f : ByteFile) (offset : Nat) (bytes : List Nat) (p : Nat)
    (h : p < offset ∨ offset + bytes.length ≤ p) :
    writeAt f offset bytes p = f p := by
  unfold writeAt
  rcases h with h | h
  · rw [if_neg (by omega)]
  · rw [if_pos (by omega)]
    have hnone : bytes[p - offset]? = none := by
      rw [List.getElem?_eq_none_iff]
      omega
    rw [hnone]

/-- Bytes inside the written range come from `bytes`. -/
theorem writeAt_inside (f : ByteFile) (offset : Nat) (bytes : List Nat) (p : Nat)
    (h1 : offset ≤ p) (h2 : p < offset + bytes.length) :
    writeAt f offset bytes p = bytes[p - offset]? := by
  unfold writeAt
  rw [if_pos h1]
  have hlt : p - offset < bytes.length := by omega
  rw [List.getElem?_eq_getElem hlt]

/-- Writing the same bytes at the same offset twice equals writing once. -/
theorem writeAt_idem (f : ByteFile) (offset : Nat) (bytes : List Nat) :
    writeAt (writeAt f offset bytes) offset bytes = writeAt f offset bytes := by
  funext p
  by_cases h1 : offset ≤ p
  · by_cases h2 : p < offset + bytes.length
    · rw [writeAt_inside _ _ _ _ h1 h2, writeAt_inside _ _ _ _ h1 h2]
    · rw [writeAt_outside _ _ _ _ (Or.inr (by omega)),
          writeAt_outside _ _ _ _ (Or.inr (by omega))]
  · rw [writeAt_outside _ _ _ _ (Or.inl (by omega)),
        writeAt_outside _ _ _ _ (Or.inl (by omega))]

/-- Distinct chunk indices with payloads no longer than `CHUNK_SIZE`
write disjoint byte ranges. -/
theorem chunk_ranges_disjoint (i j : Nat) (li lj : Nat) (p : Nat)
    (hij : i ≠ j) (hbi : li ≤ CHUNK_SIZE) (hbj : lj ≤ CHUNK_SIZE) :
    ¬(i * CHUNK_SIZE ≤ p ∧ p < i * CHUNK_SIZE + li ∧
      j * CHUNK_SIZE ≤ p ∧ p < j * CHUNK_SIZE + lj) := by
  intro hp
  rcases Nat.lt_or_ge i j with hlt | hge
  · have h2 : (i + 1) * CHUNK_SIZE ≤ j * CHUNK_SIZE :=
      Nat.mul_le_mul_right _ hlt
    have h3 : i * CHUNK_SIZE + CHUNK_SIZE = (i + 1) * CHUNK_SIZE := by ring
    omega
  · have hlt : j < i := Nat.lt_of_le_of_ne hge (fun h => hij h.symm)
    have h2 : (j + 1) * CHUNK_SIZE ≤ i * CHUNK_SIZE :=
      Nat.mul_le_mul_right _ hlt
    have h3 : j * CHUNK_SIZE + CHUNK_SIZE = (j + 1) * CHUNK_SIZE := by ring
    omega

/-- Chunk writes at distinct indices commute. -/
theorem writeChunkAt_comm (f : ByteFile) (i j : Nat) (bi bj : List Nat)
    (hij : i ≠ j) (hbi : bi.length ≤ CHUNK_SIZE) (hbj : bj.length ≤ CHUNK_SIZE) :
    writeChunkAt (writeChunkAt f i bi) j bj = writeChunkAt (writeChunkAt f j bj) i bi := by
  funext p
  unfold writeChunkAt
  by_cases hpi : i * CHUNK_SIZE ≤ p ∧ p < i * CHUNK_SIZE + bi.length
  · have hpj : p < j * CHUNK_SIZE ∨ j * CHUNK_SIZE + bj.length ≤ p := by
      have := chunk_ranges_disjoint i j bi.length bj.length p hij hbi hbj
      omega
    rw [writeAt_outside _ _ _ _ hpj, writeAt_inside _ _ _ _ hpi.1 hpi.2,
        writeAt_inside _ _ _ _ hpi.1 hpi.2]
  · by_cases hpj : j * CHUNK_SIZE ≤ p ∧ p < j * CHUNK_SIZE + bj.length
    · have hpi2 : p < i * CHUNK_SIZE ∨ i * CHUNK_SIZE + bi.length ≤ p := by omega
      rw [writeAt_inside _ _ _ _ hpj.1 hpj.2, writeAt_outside _ _ _ _ hpi2,
          writeAt_inside _ _ _ _ hpj.1 hpj.2]
    · have hpi2 : p < i * CHUNK_SIZE ∨ i * CHUNK_SIZE + bi.length ≤ p := by omega
      have hpj2 : p < j * CHUNK_SIZE ∨ j * CHUNK_SIZE + bj.length ≤ p := by omega
      rw [writeAt_outside _ _ _ _ hpj2, writeAt_outside _ _ _ _ hpi2,
          writeAt_outside _ _ _ _ hpi2, writeAt_outside _ _ _ _ hpj2]

/-- Applying a permutation of a list of chunk writes with pairwise
distinct indices yields the same file. -/
theorem applyWrites_perm (ws ws' : List (Nat × List Nat)) (f : ByteFile)
    (hperm : ws.Perm ws')
    (hlen : ∀ w ∈ ws, w.2.length ≤ CHUNK_SIZE)
    (hnodup : (ws.map Prod.fst).Nodup) :
    applyWrites ws f = applyWrites ws' f := by
  unfold applyWrites
  apply hperm.foldl_eq'
  intro x hx y hy z
  by_cases hxy : x = y
  · rw [hxy]
  · have hfst : x.1 ≠ y.1 := fun hfst =>
      hxy (List.inj_on_of_nodup_map hnodup hx hy hfst)
    exact writeChunkAt_comm z x.1 y.1 x.2 y.2 hfst (hlen x hx) (hlen y hy)

/-- The whole persistent server state: the `Upload` table, the `Chunk`
table, the fresh-id source, and the `uploads/` directory (`scratch` is
the set of existing per-session scratch files `<id>.bin`, `content`
their byte contents, `finals` the assembled files `<id>_<filename>`). -/
structure Db where
  nextId : Nat
  uploads : List UploadSession
  chunks : List ChunkRec
  scratch : List Nat
  content : Nat → ByteFile
  finals : List (Nat × String)

/-- JavaScript truthiness of an optional string field (`!filename`):
absent and `""` are falsy. -/
def truthyStr : Option String → Bool
  | none => false
  | some s => !(s == "")

/-- JavaScript truthiness of an optional numeric field (`!totalSize`):
absent and `0` are falsy. -/
def truthyNat : Option Nat → Bool
  | none => false
  | some n => !(n == 0)

/-- Body of a `POST /init` request; fields may be absent. -/
structure InitBody where
  filename : Option String
  totalSize : Option Nat
  totalChunks : Option Nat
deriving DecidableEq, Repr

/-- Response of the `/init` handler. -/
inductive InitResp where
  | badRequest
  | ok (uploadId : Nat) (existingChunks : List Nat)
deriving DecidableEq, Repr

/-- `prisma.chunk.findMany({where: {uploadId, status: COMPLETED}})
.map(c => c.chunkIndex)`. -/
def completedIdx (chunks : List ChunkRec) (uploadId : Nat) : List Nat :=
  (chunks.filter
    (fun c => decide (c.uploadId = uploadId ∧ c.status = ChunkDbStatus.COMPLETED))).map
    (·.chunkIndex)

/-- The `findFirst` filter of the `/init` handler. -/
def matchesInit (filename : String) (totalSize : Nat) (u : UploadSession) : Bool :=
  decide (u.filename = filename ∧ u.totalSize = totalSize ∧ u.status = Status.UPLOADING)

/-- `prisma.upload.findFirst({where: {filename, totalSize, status: UPLOADING}})`. -/
def initFind (filename : String) (totalSize : Nat) (db : Db) : Option UploadSession :=
  db.uploads.find? (matchesInit filename totalSize)

/-- `prisma.upload.create({data: {filename, totalSize, totalChunks}})`.
The Prisma schema file is not among the sources; per the spec's
lifecycle ("UploadSession is created on first handshake", status one of
`UPLOADING | ...`, `createdAt` used for orphan-age detection) the
schema defaults of the omitted columns are `status = UPLOADING` and
`createdAt = now`. -/
def initCreate (filename : String) (totalSize totalChunks now : Nat) (db : Db) :
    UploadSession × Db :=
  let nu : UploadSession :=
    ⟨db.nextId, filename, totalSize, totalChunks, Status.UPLOADING, none, now⟩
  (nu, { db with nextId := db.nextId + 1, uploads := db.uploads ++ [nu] })

/-- The `POST /init` (handshake) handler. -/
def initHandler (b : InitBody) (now : Nat) (db : Db) : InitResp × Db :=
  if truthyStr b.filename && truthyNat b.totalSize && truthyNat b.totalChunks then
    match initFind (b.filename.getD "") (b.totalSize.getD 0) db with
    | some u => (.ok u.id (completedIdx db.chunks u.id), db)
    | none =>
      (.ok (initCreate (b.filename.getD "") (b.totalSize.getD 0)
              (b.totalChunks.getD 0) now db).1.id
           (completedIdx
              (initCreate (b.filename.getD "") (b.totalSize.getD 0)
                (b.totalChunks.getD 0) now db).2.chunks
              (initCreate (b.filename.getD "") (b.totalSize.getD 0)
                (b.totalChunks.getD 0) now db).1.id),
       (initCreate (b.filename.getD "") (b.totalSize.getD 0)
          (b.totalChunks.getD 0) now db).2)
  else (.badRequest, db)

/-- Response of the `/chunk` handler. -/
inductive ChunkResp where
  | missingMeta
  | noData
  | ok
deriving DecidableEq, Repr

/-- The composite-key filter `uploadId_chunkIndex`. -/
def chunkKeyMatches (uId cIdx : Nat) (c : ChunkRec) : Bool :=
  decide (c.uploadId = uId ∧ c.chunkIndex = cIdx)

/-- `prisma.chunk.upsert` on the composite key: update the row's status
if the row exists, otherwise create it. -/
def upsertChunk (chunks : List ChunkRec) (uId cIdx : Nat) (st : ChunkDbStatus) :
    List ChunkRec :=
  if chunks.any (chunkKeyMatches uId cIdx) then
    chunks.map (fun c => if chunkKeyMatches uId cIdx c then { c with status := st } else c)
  else chunks ++ [⟨uId, cIdx, st⟩]

/-- `prisma.chunk.update` on the composite key. -/
def updateChunkStatus (chunks : List ChunkRec) (uId cIdx : Nat) (st : ChunkDbStatus) :
    List ChunkRec :=
  chunks.map (fun c => if chunkKeyMatches uId cIdx c then { c with status := st } else c)

/-- The offset computation of the `/chunk` handler:
`const offset = cIndex * CHUNK_SIZE`. -/
def serverChunkOffset (cIdx : Nat) : Nat := cIdx * CHUNK_SIZE

/-- `fileService.writeChunk`: create the scratch file if absent, then
write the buffer at the given offset. -/
def dbWriteChunk (db : Db) (uId : Nat) (offset : Nat) (bytes : List Nat) : Db :=
  { db with
      scratch := if uId ∈ db.scratch then db.scratch else db.scratch ++ [uId],
      content := Function.update db.content uId (writeAt (db.content uId) offset bytes) }

/-- The `POST /chunk` handler.  Note the order of effects in the
source: the chunk row is upserted to `UPLOADING` *before* the request
body's `data` field is checked. -/
def chunkHandler (uploadId chunkIndex : Option Nat) (data : Option (List Nat))
    (db : Db) : ChunkResp × Db :=
  match uploadId, chunkIndex with
  | some uId, some cIdx =>
    let db1 := { db with chunks := upsertChunk db.chunks uId cIdx ChunkDbStatus.UPLOADING }
    match data with
    | none => (.noData, db1)
    | some bytes =>
      let db2 := dbWriteChunk db1 uId (serverChunkOffset cIdx) bytes
      let db3 := { db2 with
        chunks := updateChunkStatus db2.chunks uId cIdx ChunkDbStatus.COMPLETED }
      (.ok, db3)
  | _, _ => (.missingMeta, db)

/-- Response of the `/finalize` handler. -/
inductive FinResp where
  | notFound
  | info (st : Status)
  | completed (files : List String) (hash : String)
  | err (msg : String)
deriving DecidableEq, Repr

/-- The `updateMany` filter `{id: uploadId, status: UPLOADING}`. -/
def finalizeMatches (uploadId : Nat) (u : UploadSession) : Bool :=
  decide (u.id = uploadId ∧ u.status = Status.UPLOADING)

/-- `prisma.upload.update({where: {id}, data: {status}})`. -/
def setUploadStatus (uploads : List UploadSession) (uploadId : Nat) (st : Status) :
    List UploadSession :=
  uploads.map (fun u => if decide (u.id = uploadId) then { u with status := st } else u)

/-- `prisma.upload.update({where: {id}, data: {status: COMPLETED, finalHash}})`. -/
def completeUpload (uploads : List UploadSession) (uploadId : Nat) (hash : String) :
    List UploadSession :=
  uploads.map (fun u =>
    if decide (u.id = uploadId) then
      { u with status := Status.COMPLETED, finalHash := some hash }
    else u)

/-- `fileService.assembleFile`: rename the scratch file to its final
name. -/
def assembleDb (db : Db) (uploadId : Nat) (filename : String) : Db :=
  { db with
      scratch := db.scratch.erase uploadId,
      finals := db.finals ++ [(uploadId, filename)] }

/-- `prisma.chunk.count({where: {uploadId, status: COMPLETED}})`. -/
def countCompleted (chunks : List ChunkRec) (uploadId : Nat) : Nat :=
  (chunks.filter
    (fun c => decide (c.uploadId = uploadId ∧ c.status = ChunkDbStatus.COMPLETED))).length

/-- The `POST /finalize` handler.  The external collaborators are the
parameters `assembleOk` (whether the filesystem rename succeeds) and
`peek` (the result of the `yauzl` structural check). -/
def finalizeHandler (uploadId : Nat) (assembleOk : Bool)
    (peek : Except String (List String)) (db : Db) : FinResp × Db :=
  let count := (db.uploads.filter (finalizeMatches uploadId)).length
  let db1 := { db with
    uploads := db.uploads.map (fun u =>
      if finalizeMatches uploadId u then { u with status := Status.PROCESSING } else u) }
  if count = 0 then
    match db1.uploads.find? (fun u => decide (u.id = uploadId)) with
    | none => (.notFound, db1)
    | some u => (.info u.status, db1)
  else
    match db1.uploads.find? (fun u => decide (u.id = uploadId)) with
    | none => (.err "Upload disappeared", db1)
    | some u =>
      if countCompleted db1.chunks uploadId ≠ u.totalChunks then
        (.err "Missing chunks",
         { db1 with uploads := setUploadStatus db1.uploads uploadId Status.FAILED })
      else if !assembleOk then
        (.err "assembly failed",
         { db1 with uploads := setUploadStatus db1.uploads uploadId Status.FAILED })
      else
        let db2 := assembleDb db1 uploadId u.filename
        match peek with
        | .error e =>
          (.err e,
           { db2 with uploads := setUploadStatus db2.uploads uploadId Status.FAILED })
        | .ok files =>
          (.completed files "dummy_hash",
           { db2 with uploads := completeUpload db2.uploads uploadId "dummy_hash" })

/-- `24 * 60 * 60 * 1000` milliseconds. -/
def ORPHAN_AGE_MS : Nat := 24 * 60 * 60 * 1000

/-- The cleanup filter `{status: UPLOADING, createdAt: {lt: cutoff}}`
with `cutoff = now - 24h`. -/
def isOrphan (now : Nat) (u : UploadSession) : Bool :=
  decide (u.status = Status.UPLOADING ∧ u.createdAt < now - ORPHAN_AGE_MS)

/-- The `POST /cleanup` handler: for each orphaned session, delete its
chunk rows, its upload row, and its scratch file; answer with the
number of reclaimed sessions. -/
def cleanupHandler (now : Nat) (db : Db) : Nat × Db :=
  let orphaned := db.uploads.filter (isOrphan now)
  let orphanIds := orphaned.map (·.id)
  (orphaned.length,
   { db with
       uploads := db.uploads.filter (fun u => !(orphanIds.contains u.id)),
       chunks := db.chunks.filter (fun c => !(orphanIds.contains c.uploadId)),
       scratch := db.scratch.filter (fun i => !(orphanIds.contains i)),
       content := fun i => if orphanIds.contains i then emptyFile else db.content i })

/-! ## Client-side `Uploader` (frontend `uploader.ts`) -/

/-- `Uploader.getChunk`: the slice start `index * CHUNK_SIZE`. -/
def getChunkStart (i : Nat) : Nat := i * CHUNK_SIZE

/-- `Uploader.getChunk`: the slice end `min(start + CHUNK_SIZE, file.size)`. -/
def getChunkEnd (size i : Nat) : Nat := min (i * CHUNK_SIZE + CHUNK_SIZE) size

/-- `Uploader.getChunkSize`: `end - start`. -/
def getChunkSize (size i : Nat) : Nat := getChunkEnd size i - getChunkStart i

/-- `Math.ceil(file.size / CHUNK_SIZE)`, the declared `totalChunks`. -/
def clientTotalChunks (size : Nat) : Nat := (size + CHUNK_SIZE - 1) / CHUNK_SIZE

/-- Per-chunk client state. -/
inductive CStat where
  | PENDING
  | UPLOADING
  | SUCCESS
  | ERROR
deriving DecidableEq, Repr

/-- Overall transfer state reported through `onProgress`. -/
inductive TStat where
  | IDLE
  | UPLOADING
  | COMPLETED
  | ERROR
deriving DecidableEq, Repr

/-- `axiosRetry` is called with `retries = 10`: one initial attempt
plus ten retries. -/
def RETRIES : Nat := 10

/-- Total transport attempts for one chunk. -/
def TOTAL_ATTEMPTS : Nat := RETRIES + 1

/-- State of one of the `CONCURRENCY = 3` workers.  `busy i r` is a
worker inside `uploadChunk i` with `r` transport attempts remaining
(including the one in flight). -/
inductive WState where
  | idle
  | busy (i : Nat) (attemptsLeft : Nat)
  | done
deriving DecidableEq, Repr

/-- The mutable `Uploader` instance state shared by the workers:
`chunks` (status per index), the shared work `queue`, the cooperative
`aborted` flag, whether `finalize` was invoked, and the trace of
overall statuses passed to `updateStatus`/`onProgress`. -/
structure ClientState where
  n : Nat
  chunks : Nat → CStat
  queue : List Nat
  aborted : Bool
  finalized : Bool
  reports : List TStat

/-- Three workers plus the shared state. -/
structure Sys where
  w0 : WState
  w1 : WState
  w2 : WState
  cs : ClientState

/-- One micro-step of one worker, given the transport oracle `tr`
(`tr i a = true` iff attempt number `a` for chunk `i` succeeds).

* `idle`: the top of the `worker()` loop — exit if `aborted` or the
  queue is empty, otherwise `shift()` the next index and enter
  `uploadChunk` (which marks the chunk `UPLOADING` and reports).
* `busy i r`: one transport attempt.  Success marks the chunk
  `SUCCESS` (and the `finally` block reports `UPLOADING`); failure
  with retries left backs off and retries; failure of the last attempt
  marks the chunk `ERROR`, sets `aborted`, and reports `UPLOADING`
  from the `finally` block. -/
def stepWorker (tr : Nat → Nat → Bool) (w : WState) (cs : ClientState) :
    WState × ClientState :=
  match w with
  | .done => (.done, cs)
  | .idle =>
    if cs.aborted then (.done, cs)
    else
      match cs.queue with
      | [] => (.done, cs)
      | i :: rest =>
        (.busy i TOTAL_ATTEMPTS,
         { cs with
             queue := rest,
             chunks := Function.update cs.chunks i CStat.UPLOADING,
             reports := cs.reports ++ [TStat.UPLOADING] })
  | .busy i r =>
    if tr i (TOTAL_ATTEMPTS - r) then
      (.idle,
       { cs with
           chunks := Function.update cs.chunks i CStat.SUCCESS,
           reports := cs.reports ++ [TStat.UPLOADING] })
    else if r ≤ 1 then
      (.idle,
       { cs with
           chunks := Function.update cs.chunks i CStat.ERROR,
           aborted := true,
           reports := cs.reports ++ [TStat.UPLOADING] })
    else (.busy i (r - 1), cs)

/-- Let worker `w` (0, 1 or 2) take its next micro-step. -/
def stepSys (tr : Nat → Nat → Bool) (s : Sys) (w : Nat) : Sys :=
  match w with
  | 0 => let p := stepWorker tr s.w0 s.cs; { s with w0 := p.1, cs := p.2 }
  | 1 => let p := stepWorker tr s.w1 s.cs; { s with w1 := p.1, cs := p.2 }
  | 2 => let p := stepWorker tr s.w2 s.cs; { s with w2 := p.1, cs := p.2 }
  | _ => s

/-- Run the system under an arbitrary interleaving `sched` of worker
micro-steps. -/
def runSys (tr : Nat → Nat → Bool) (s : Sys) (sched : List Nat) : Sys :=
  sched.foldl (stepSys tr) s

/-- `this.chunks.every(c => c.status === 'SUCCESS')`. -/
def allSuccess (cs : ClientState) : Bool :=
  (List.range cs.n).all (fun i => cs.chunks i == CStat.SUCCESS)

/-- The tail of `Uploader.start()` after `processQueue()` resolves:
`if (!this.aborted && this.chunks.every(c => c.status === 'SUCCESS'))
await this.finalize()`, and `finalize` reports `COMPLETED`. -/
def finishRun (s : Sys) : Sys :=
  if !s.cs.aborted && allSuccess s.cs then
    { s with cs := { s.cs with
        finalized := true,
        reports := s.cs.reports ++ [TStat.COMPLETED] } }
  else s

/-- Chunk statuses right after the handshake: indices in the server's
resume set (guarded by `if (this.chunks[index])`) are `SUCCESS`, all
others `PENDING`. -/
def initChunks (n : Nat) (resume : List Nat) : Nat → CStat :=
  fun i => if i < n ∧ i ∈ resume then CStat.SUCCESS else CStat.PENDING

/-- The `Uploader` state after `handshake()` returns: the queue holds
every non-`SUCCESS` index in index order, and `updateStatus('UPLOADING')`
has emitted the first report. -/
def initClient (n : Nat) (resume : List Nat) : ClientState :=
  { n := n,
    chunks := initChunks n resume,
    queue := (List.range n).filter (fun i => !(initChunks n resume i == CStat.SUCCESS)),
    aborted := false,
    finalized := false,
    reports := [TStat.UPLOADING] }

/-- The full system at the start of `processQueue()`: three idle
workers. -/
def initSys (n : Nat) (resume : List Nat) : Sys :=
  { w0 := .idle, w1 := .idle, w2 := .idle, cs := initClient n resume }

/-! ## Concrete states used by witnesses -/

/-- The empty server state. -/
def emptyDb : Db :=
  { nextId := 0, uploads := [], chunks := [], scratch := [],
    content := fun _ => emptyFile, finals := [] }

/-- A state holding one unrelated completed chunk row. -/
def oneChunkDb : Db := { emptyDb with chunks := [⟨2, 5, ChunkDbStatus.COMPLETED⟩] }

/-! ## C10: handshake validation -/

/-- C10: a handshake request in which `filename` is absent, `totalSize`
is `0` or absent, or `totalChunks` is `0` or absent is answered with the
400 validation response and no session is created (the store is
unchanged); in particular a zero-byte file can never begin a session. -/
theorem init_missing_fields (b : InitBody) (now : Nat) (db : Db)
    (h : b.filename = none ∨ b.totalSize = none ∨ b.totalSize = some 0 ∨
         b.totalChunks = none ∨ b.totalChunks = some 0) :
    initHandler b now db = (InitResp.badRequest, db) := by
  unfold initHandler
  rcases h with h | h | h | h | h <;> simp [h, truthyStr, truthyNat]

theorem init_missing_fields_witness :
    (InitBody.mk (some "a.zip") (some 0) (some 0)).totalSize = some 0 ∧
    initHandler (InitBody.mk (some "a.zip") (some 0) (some 0)) 5 emptyDb =
      (InitResp.badRequest, emptyDb) :=
  ⟨rfl, init_missing_fields _ 5 emptyDb (Or.inr (Or.inr (Or.inl rfl)))⟩

/-! ## C5: idempotent, order-independent chunk writes -/

/-- C5: modelling the scratch file as a byte map, writing chunk `i`
twice with identical bytes equals writing it once, and any permutation
of a set of chunk writes with distinct indices (each payload at most
`CHUNK_SIZE` bytes, so each write touches only its own byte range)
produces the same file as writing them in any other order — in
particular in index order. -/
theorem chunkWriter_idem_perm :
    (∀ (f : ByteFile) (i : Nat) (b : List Nat),
        writeChunkAt (writeChunkAt f i b) i b = writeChunkAt f i b) ∧
    (∀ (ws ws' : List (Nat × List Nat)) (f : ByteFile),
        ws.Perm ws' →
        (∀ w ∈ ws, w.2.length ≤ CHUNK_SIZE) →
        (ws.map Prod.fst).Nodup →
        applyWrites ws f = applyWrites ws' f) :=
  ⟨fun f i b => writeAt_idem f (i * CHUNK_SIZE) b,
   fun ws ws' f hperm hlen hnodup => applyWrites_perm ws ws' f hperm hlen hnodup⟩

theorem chunkWriter_idem_perm_witness :
    writeChunkAt (writeChunkAt emptyFile 2 [7]) 2 [7] = writeChunkAt emptyFile 2 [7] ∧
    applyWrites [(0, [1]), (1, [2])] emptyFile = applyWrites [(1, [2]), (0, [1])] emptyFile :=
  ⟨chunkWriter_idem_perm.1 emptyFile 2 [7],
   chunkWriter_idem_perm.2 [(0, [1]), (1, [2])] [(1, [2]), (0, [1])] emptyFile
     (by decide) (by decide) (by decide)⟩

/-! ## C8: chunk geometry -/

/-- C8: the server writes chunk `i` at byte offset `i * CHUNK_SIZE`;
the client slices exactly `[i*CHUNK_SIZE, min((i+1)*CHUNK_SIZE, size))`,
so every chunk except the final one has length `CHUNK_SIZE` and the
final one the remainder; the declared `totalChunks` is the ceiling of
`size / CHUNK_SIZE` (characterised as the least count covering `size`);
and no two distinct indices claim overlapping byte ranges. -/
theorem chunk_layout :
    (∀ i, serverChunkOffset i = i * CHUNK_SIZE) ∧
    (∀ size i, getChunkStart i = i * CHUNK_SIZE ∧
        getChunkEnd size i = min ((i + 1) * CHUNK_SIZE) size) ∧
    (∀ size i, i + 1 < clientTotalChunks size → getChunkSize size i = CHUNK_SIZE) ∧
    (∀ size, 0 < size →
        getChunkSize size (clientTotalChunks size - 1) =
          size - (clientTotalChunks size - 1) * CHUNK_SIZE) ∧
    (∀ size, size ≤ clientTotalChunks size * CHUNK_SIZE ∧
        (0 < size → (clientTotalChunks size - 1) * CHUNK_SIZE < size)) ∧
    (clientTotalChunks 0 = 0) ∧
    (∀ size i j p, i ≠ j →
        ¬(getChunkStart i ≤ p ∧ p < getChunkEnd size i ∧
          getChunkStart j ≤ p ∧ p < getChunkEnd size j)) := by
  refine ⟨fun i => rfl, fun size i => ⟨rfl, ?_⟩, ?_, ?_, ?_, rfl, ?_⟩
  · simp only [getChunkEnd, CHUNK_SIZE]
    omega
  · intro size i h
    simp only [clientTotalChunks, CHUNK_SIZE] at h
    simp only [getChunkSize, getChunkEnd, getChunkStart, CHUNK_SIZE]
    omega
  · intro size h
    simp only [clientTotalChunks, CHUNK_SIZE]
    simp only [getChunkSize, getChunkEnd, getChunkStart, CHUNK_SIZE]
    omega
  · intro size
    simp only [clientTotalChunks, CHUNK_SIZE]
    omega
  · intro size i j p hij hcl
    simp only [getChunkStart, getChunkEnd, CHUNK_SIZE] at hcl
    omega

theorem chunk_layout_witness :
    (0 + 1 < clientTotalChunks 12582912 ∧ getChunkSize 12582912 0 = CHUNK_SIZE) ∧
    (0 < 12582912 ∧
      getChunkSize 12582912 (clientTotalChunks 12582912 - 1) =
        12582912 - (clientTotalChunks 12582912 - 1) * CHUNK_SIZE) ∧
    ((0 : Nat) ≠ 1 ∧
      ¬(getChunkStart 0 ≤ 100 ∧ 100 < getChunkEnd 12582912 0 ∧
        getChunkStart 1 ≤ 100 ∧ 100 < getChunkEnd 12582912 1)) :=
  ⟨⟨by decide, chunk_layout.2.2.1 12582912 0 (by decide)⟩,
   ⟨by decide, chunk_layout.2.2.2.1 12582912 (by decide)⟩,
   ⟨by decide, chunk_layout.2.2.2.2.2.2 12582912 0 1 100 (by decide)⟩⟩

/-! ## C9: the handshake creation path is not an atomic insert-if-absent -/

/-- Two `/init` requests with identical arguments racing: under the
interleaving findFirst(A), findFirst(B), create(A), create(B) — possible
because the handler performs the lookup and the create as two separate
store operations — both lookups see no session and both requests
create one. -/
def racedInitDb (filename : String) (sz tc nowA nowB : Nat) (db : Db) : Db :=
  let foundA := initFind filename sz db
  let foundB := initFind filename sz db
  let db1 := match foundA with
    | some _ => db
    | none => (initCreate filename sz tc nowA db).2
  let db2 := match foundB with
    | some _ => db1
    | none => (initCreate filename sz tc nowB db1).2
  db2

/-- C9: the concurrent-handshake claim fails on the code: the creation
path is `findFirst` followed by `create`, two separate operations, and
the interleaving above leaves two `UPLOADING` sessions with the same
`(filename, totalSize)` in the store. -/
theorem init_race_two_sessions :
    ((racedInitDb "a.zip" 100 1 5 6 emptyDb).uploads.filter
        (matchesInit "a.zip" 100)).length = 2 ∧
    ((racedInitDb "a.zip" 100 1 5 6 emptyDb).uploads.filter
        (fun u => decide (u.status = Status.UPLOADING))).length = 2 := by
  constructor <;> rfl

/-! ## C6: chunk-accept validation -/

/-- C6 fails as stated: a chunk-accept request with present metadata
but absent payload `data` is rejected with the `No data` error, yet the
ChunkRecord upsert has already run — state IS mutated. -/
theorem chunk_missing_data_mutates :
    (chunkHandler (some 1) (some 0) none emptyDb).1 = ChunkResp.noData ∧
    emptyDb.chunks = [] ∧
    (chunkHandler (some 1) (some 0) none emptyDb).2.chunks =
      [ChunkRec.mk 1 0 ChunkDbStatus.UPLOADING] :=
  ⟨rfl, rfl, rfl⟩

/-- A chunk row surviving an `UPLOADING` upsert as `COMPLETED` was
already present before the upsert. -/
theorem upsert_completed_mem (chunks : List ChunkRec) (uId cIdx : Nat)
    (c : ChunkRec) (hc : c ∈ upsertChunk chunks uId cIdx ChunkDbStatus.UPLOADING)
    (hst : c.status = ChunkDbStatus.COMPLETED) : c ∈ chunks := by
  unfold upsertChunk at hc
  by_cases hany : chunks.any (chunkKeyMatches uId cIdx)
  · rw [if_pos hany] at hc
    obtain ⟨a, ha, hac⟩ := List.mem_map.mp hc
    by_cases hk : chunkKeyMatches uId cIdx a
    · rw [if_pos hk] at hac
      rw [← hac] at hst
      simp at hst
    · rw [if_neg hk] at hac
      rw [← hac]
      exact ha
  · rw [if_neg hany] at hc
    rcases List.mem_append.mp hc with h | h
    · exact h
    · simp only [List.mem_singleton] at h
      rw [h] at hst
      simp at hst

/-- C6 (amended): a chunk-accept request missing `uploadId` or
`chunkIndex` is rejected with no state mutation at all; a request with
present metadata but absent payload `data` is rejected immediately with
an error, no bytes are written, no session is touched and no chunk is
newly marked `COMPLETED`, but the ChunkRecord for the addressed key is
created or reset to `UPLOADING` before the payload check. -/
theorem chunk_validation_effects :
    (∀ cI data db, chunkHandler none cI data db = (ChunkResp.missingMeta, db)) ∧
    (∀ uI data db, chunkHandler uI none data db = (ChunkResp.missingMeta, db)) ∧
    (∀ uId cIdx db,
       (chunkHandler (some uId) (some cIdx) none db).1 = ChunkResp.noData ∧
       (chunkHandler (some uId) (some cIdx) none db).2.uploads = db.uploads ∧
       (chunkHandler (some uId) (some cIdx) none db).2.scratch = db.scratch ∧
       (chunkHandler (some uId) (some cIdx) none db).2.content = db.content ∧
       (chunkHandler (some uId) (some cIdx) none db).2.chunks =
         upsertChunk db.chunks uId cIdx ChunkDbStatus.UPLOADING ∧
       (∀ c ∈ (chunkHandler (some uId) (some cIdx) none db).2.chunks,
          c.status = ChunkDbStatus.COMPLETED → c ∈ db.chunks)) := by
  refine ⟨fun cI data db => rfl, fun uI data db => ?_, fun uId cIdx db => ?_⟩
  · cases uI <;> rfl
  · exact ⟨rfl, rfl, rfl, rfl, rfl, fun c hc hst => upsert_completed_mem db.chunks uId cIdx c hc hst⟩

theorem chunk_validation_effects_witness :
    chunkHandler none (some 0) (some [1]) emptyDb = (ChunkResp.missingMeta, emptyDb) ∧
    chunkHandler (some 1) none (some [1]) emptyDb = (ChunkResp.missingMeta, emptyDb) ∧
    ChunkRec.mk 2 5 ChunkDbStatus.COMPLETED ∈
      (chunkHandler (some 1) (some 0) none oneChunkDb).2.chunks ∧
    ChunkRec.mk 2 5 ChunkDbStatus.COMPLETED ∈ oneChunkDb.chunks :=
  ⟨chunk_validation_effects.1 (some 0) (some [1]) emptyDb,
   chunk_validation_effects.2.1 (some 1) (some [1]) emptyDb,
   by decide,
   (chunk_validation_effects.2.2 1 0 oneChunkDb).2.2.2.2.2
     (ChunkRec.mk 2 5 ChunkDbStatus.COMPLETED) (by decide) rfl⟩

/-! ## C1: losing finalize callers get an informational status -/

/-- `find?` by id returns the unique session with that id. -/
theorem find?_id_of_uniq (l : List UploadSession) (uploadId : Nat) (u : UploadSession)
    (hmem : u ∈ l) (hid : u.id = uploadId)
    (huniq : ∀ v ∈ l, v.id = uploadId → v = u) :
    l.find? (fun v => decide (v.id = uploadId)) = some u := by
  cases hfind : l.find? (fun v => decide (v.id = uploadId)) with
  | none =>
    exfalso
    have := List.find?_eq_none.mp hfind u hmem
    simp [hid] at this
  | some w =>
    have hw := List.find?_some hfind
    have hwm := List.mem_of_find?_eq_some hfind
    simp only [decide_eq_true_eq] at hw
    rw [huniq w hwm hw]

/-- C1: a finalize call on an existing session whose status is not
`UPLOADING` finds that the conditional update changed zero rows, leaves
the store entirely unchanged (so no assembly and no state transition
happens), and returns the session's current status as an informational
result. -/
theorem finalize_nonuploading_info (uploadId : Nat) (aOk : Bool)
    (peek : Except String (List String)) (db : Db) (u : UploadSession)
    (hfind : db.uploads.find? (fun v => decide (v.id = uploadId)) = some u)
    (hnone : ∀ v ∈ db.uploads, v.id = uploadId → v.status ≠ Status.UPLOADING) :
    (db.uploads.filter (finalizeMatches uploadId)).length = 0 ∧
    finalizeHandler uploadId aOk peek db = (FinResp.info u.status, db) := by
  have hfilter : db.uploads.filter (finalizeMatches uploadId) = [] := by
    rw [List.filter_eq_nil_iff]
    intro v hv
    simp only [finalizeMatches, decide_eq_true_eq, not_and]
    intro hvid
    exact hnone v hv hvid
  have hmap : db.uploads.map (fun v =>
      if finalizeMatches uploadId v then { v with status := Status.PROCESSING } else v) =
      db.uploads := by
    have h2 : ∀ v ∈ db.uploads,
        (if finalizeMatches uploadId v then { v with status := Status.PROCESSING } else v) =
        id v := by
      intro v hv
      have : finalizeMatches uploadId v = false := by
        simp only [finalizeMatches, decide_eq_false_iff_not, not_and]
        intro hvid
        exact hnone v hv hvid
      rw [this]
      rfl
    rw [List.map_congr_left h2, List.map_id]
  refine ⟨by rw [hfilter]; rfl, ?_⟩
  unfold finalizeHandler
  simp only [hfilter, hmap, List.length_nil, if_pos, hfind]

/-- A store holding one already-completed session. -/
def doneDb : Db :=
  { emptyDb with
      nextId := 1,
      uploads := [⟨0, "a.zip", 100, 1, Status.COMPLETED, some "dummy_hash", 5⟩] }

theorem finalize_nonuploading_info_witness :
    (doneDb.uploads.find? (fun v => decide (v.id = 0)) =
      some ⟨0, "a.zip", 100, 1, Status.COMPLETED, some "dummy_hash", 5⟩) ∧
    (∀ v ∈ doneDb.uploads, v.id = 0 → v.status ≠ Status.UPLOADING) ∧
    finalizeHandler 0 true (Except.ok []) doneDb =
      (FinResp.info Status.COMPLETED, doneDb) :=
  ⟨rfl, by decide,
   (finalize_nonuploading_info 0 true (Except.ok []) doneDb
      ⟨0, "a.zip", 100, 1, Status.COMPLETED, some "dummy_hash", 5⟩ rfl (by decide)).2⟩

/-! ## C2: the winning finalize caller fails on a chunk-count mismatch -/

/-- Shape of the upload table after any finalize call: every row comes
from a pre-state row with the same id, and either keeps its hash or has
been completed. -/
theorem finalize_uploads_shape (uploadId : Nat) (aOk : Bool)
    (peek : Except String (List String)) (db : Db) :
    ∀ v ∈ (finalizeHandler uploadId aOk peek db).2.uploads,
      ∃ w ∈ db.uploads, v.id = w.id ∧
        (v.finalHash = w.finalHash ∨ v.status = Status.COMPLETED) := by
  intro v hv
  unfold finalizeHandler at hv
  simp only [setUploadStatus, completeUpload, assembleDb] at hv
  split at hv
  · split at hv <;>
    · simp only at hv
      obtain ⟨w, hw, hvw⟩ := List.mem_map.mp hv
      refine ⟨w, hw, ?_⟩
      split at hvw <;> rw [← hvw] <;> exact ⟨rfl, Or.inl rfl⟩
  · split at hv
    · simp only at hv
      obtain ⟨w, hw, hvw⟩ := List.mem_map.mp hv
      refine ⟨w, hw, ?_⟩
      split at hvw <;> rw [← hvw] <;> exact ⟨rfl, Or.inl rfl⟩
    · split at hv
      · simp only [List.map_map] at hv
        obtain ⟨w, hw, hvw⟩ := List.mem_map.mp hv
        refine ⟨w, hw, ?_⟩
        simp only [Function.comp] at hvw
        rw [← hvw]
        split <;> split <;> exact ⟨rfl, Or.inl rfl⟩
      · split at hv
        · simp only [List.map_map] at hv
          obtain ⟨w, hw, hvw⟩ := List.mem_map.mp hv
          refine ⟨w, hw, ?_⟩
          simp only [Function.comp] at hvw
          rw [← hvw]
          split <;> split <;> exact ⟨rfl, Or.inl rfl⟩
        · split at hv
          · simp only [List.map_map] at hv
            obtain ⟨w, hw, hvw⟩ := List.mem_map.mp hv
            refine ⟨w, hw, ?_⟩
            simp only [Function.comp] at hvw
            rw [← hvw]
            split <;> split <;> exact ⟨rfl, Or.inl rfl⟩
          · simp only [List.map_map] at hv
            obtain ⟨w, hw, hvw⟩ := List.mem_map.mp hv
            refine ⟨w, hw, ?_⟩
            simp only [Function.comp] at hvw
            rw [← hvw]
            split
            · split
              · exact ⟨rfl, Or.inr rfl⟩
              · exact ⟨rfl, Or.inl rfl⟩
            · split
              · exact ⟨rfl, Or.inr rfl⟩
              · exact ⟨rfl, Or.inl rfl⟩

/-- `find?` by id commutes with an id-preserving map. -/
theorem find?_id_map (l : List UploadSession) (uploadId : Nat)
    (g : UploadSession → UploadSession) (hg : ∀ u, (g u).id = u.id) :
    (l.map g).find? (fun v => decide (v.id = uploadId)) =
      (l.find? (fun v => decide (v.id = uploadId))).map g := by
  rw [List.find?_map]
  have hcomp : ((fun v : UploadSession => decide (v.id = uploadId)) ∘ g) =
      (fun v : UploadSession => decide (v.id = uploadId)) := by
    funext v
    simp [Function.comp, hg v]
  rw [hcomp]

/-- C2: a finalize caller that wins the conditional transition but
finds the count of `COMPLETED` chunk rows different from `totalChunks`
answers with a descriptive error, leaves the files untouched (no
assembly: `scratch` and `finals` unchanged), and moves the session to
`FAILED`; moreover (last conjunct) after any finalize call a session
row carries a `finalHash` only if it already carried that hash before
the call or its status is `COMPLETED`. -/
theorem finalize_winner_missing_chunks
    (uploadId : Nat) (aOk : Bool) (peek : Except String (List String))
    (db : Db) (u : UploadSession)
    (hmem : u ∈ db.uploads) (hid : u.id = uploadId) (hst : u.status = Status.UPLOADING)
    (huniq : ∀ v ∈ db.uploads, v.id = uploadId → v = u)
    (hcnt : countCompleted db.chunks uploadId ≠ u.totalChunks) :
    (finalizeHandler uploadId aOk peek db).1 = FinResp.err "Missing chunks" ∧
    ((finalizeHandler uploadId aOk peek db).2.uploads.find?
        (fun v => decide (v.id = uploadId))).map UploadSession.status =
      some Status.FAILED ∧
    (finalizeHandler uploadId aOk peek db).2.finals = db.finals ∧
    (finalizeHandler uploadId aOk peek db).2.scratch = db.scratch ∧
    (∀ (uploadId2 : Nat) (aOk2 : Bool) (peek2 : Except String (List String))
       (db2 : Db) (v : UploadSession),
       v ∈ (finalizeHandler uploadId2 aOk2 peek2 db2).2.uploads →
       v.finalHash ≠ none →
       v.status = Status.COMPLETED ∨
         ∃ w ∈ db2.uploads, w.id = v.id ∧ w.finalHash = v.finalHash) := by
  have hfind0 : db.uploads.find? (fun v => decide (v.id = uploadId)) = some u :=
    find?_id_of_uniq db.uploads uploadId u hmem hid huniq
  have hcount : ¬((db.uploads.filter (finalizeMatches uploadId)).length = 0) := by
    have humem : u ∈ db.uploads.filter (finalizeMatches uploadId) :=
      List.mem_filter.mpr ⟨hmem, by simp [finalizeMatches, hid, hst]⟩
    intro h0
    rw [List.length_eq_zero] at h0
    rw [h0] at humem
    exact (List.not_mem_nil u) humem
  have hfind1 : (db.uploads.map (fun v =>
      if finalizeMatches uploadId v then { v with status := Status.PROCESSING } else v)).find?
        (fun v => decide (v.id = uploadId)) =
      some { u with status := Status.PROCESSING } := by
    have hg : ∀ v : UploadSession,
        ((if finalizeMatches uploadId v then
            { v with status := Status.PROCESSING } else v) : UploadSession).id = v.id := by
      intro v
      split <;> rfl
    rw [find?_id_map db.uploads uploadId _ hg, hfind0]
    simp [finalizeMatches, hid, hst]
  have hmain : finalizeHandler uploadId aOk peek db =
      (FinResp.err "Missing chunks",
       { db with uploads := (setUploadStatus (db.uploads.map (fun v =>
           if finalizeMatches uploadId v then { v with status := Status.PROCESSING } else v))
           uploadId Status.FAILED) }) := by
    unfold finalizeHandler
    simp only [if_neg hcount, hfind1]
    rw [if_pos]
    exact hcnt
  have hfind2 : (setUploadStatus (db.uploads.map (fun v =>
      if finalizeMatches uploadId v then { v with status := Status.PROCESSING } else v))
        uploadId Status.FAILED).find? (fun v => decide (v.id = uploadId)) =
      some { u with status := Status.FAILED } := by
    unfold setUploadStatus
    have hg2 : ∀ v : UploadSession,
        ((if decide (v.id = uploadId) then { v with status := Status.FAILED } else v) :
          UploadSession).id = v.id := by
      intro v
      split <;> rfl
    rw [find?_id_map _ uploadId _ hg2, hfind1]
    simp [hid]
  refine ⟨by rw [hmain], by rw [hmain]; simp [hfind2], by rw [hmain], by rw [hmain], ?_⟩
  intro uploadId2 aOk2 peek2 db2 v hv hhash
  obtain ⟨w, hw, hidw, hcase⟩ := finalize_uploads_shape uploadId2 aOk2 peek2 db2 v hv
  rcases hcase with hcase | hcase
  · exact Or.inr ⟨w, hw, hidw.symm, hcase.symm⟩
  · exact Or.inl hcase

/-- A store holding one `UPLOADING` session with no completed chunks. -/
def upDb : Db :=
  { emptyDb with
      nextId := 1,
      uploads := [⟨0, "a.zip", 100, 1, Status.UPLOADING, none, 5⟩] }

theorem finalize_winner_missing_chunks_witness :
    ((⟨0, "a.zip", 100, 1, Status.UPLOADING, none, 5⟩ : UploadSession) ∈ upDb.uploads) ∧
    (countCompleted upDb.chunks 0 ≠
      (⟨0, "a.zip", 100, 1, Status.UPLOADING, none, 5⟩ : UploadSession).totalChunks) ∧
    (finalizeHandler 0 true (Except.ok []) upDb).1 = FinResp.err "Missing chunks" ∧
    ((finalizeHandler 0 true (Except.ok []) upDb).2.uploads.find?
        (fun v => decide (v.id = 0))).map UploadSession.status = some Status.FAILED :=
  ⟨by decide, by decide,
   (finalize_winner_missing_chunks 0 true (Except.ok []) upDb
      ⟨0, "a.zip", 100, 1, Status.UPLOADING, none, 5⟩
      (by decide) rfl rfl (by decide) (by decide)).1,
   (finalize_winner_missing_chunks 0 true (Except.ok []) upDb
      ⟨0, "a.zip", 100, 1, Status.UPLOADING, none, 5⟩
      (by decide) rfl rfl (by decide) (by decide)).2.1⟩

/-! ## C7: cleanup deletes exactly the old `UPLOADING` sessions -/

/-- Filtering by a predicate and by its negation splits the length. -/
theorem length_filter_not_add {α : Type} (l : List α) (p : α → Bool) :
    (l.filter (fun a => !(p a))).length + (l.filter p).length = l.length := by
  induction l with
  | nil => rfl
  | cons a t ih =>
    cases h : p a with
    | false =>
      have h1 : List.filter (fun x => !(p x)) (a :: t) =
          a :: List.filter (fun x => !(p x)) t := by
        simp [List.filter_cons, h]
      have h2 : List.filter p (a :: t) = List.filter p t := by
        simp [List.filter_cons, h]
      rw [h1, h2]
      simp only [List.length_cons]
      omega
    | true =>
      have h1 : List.filter (fun x => !(p x)) (a :: t) =
          List.filter (fun x => !(p x)) t := by
        simp [List.filter_cons, h]
      have h2 : List.filter p (a :: t) = a :: List.filter p t := by
        simp [List.filter_cons, h]
      rw [h1, h2]
      simp only [List.length_cons]
      omega

/-- Under unique session ids, membership of a session's id in the
orphan-id list coincides with the session being an orphan. -/
theorem mem_orphanIds_iff (now : Nat) (db : Db)
    (hnd : (db.uploads.map UploadSession.id).Nodup)
    (u : UploadSession) (hu : u ∈ db.uploads) :
    ((db.uploads.filter (isOrphan now)).map UploadSession.id).contains u.id =
      isOrphan now u := by
  rw [Bool.eq_iff_iff]
  constructor
  · intro hcon
    have hmem2 : u.id ∈ (db.uploads.filter (isOrphan now)).map UploadSession.id := by
      simpa using hcon
    obtain ⟨v, hv, hvid⟩ := List.mem_map.mp hmem2
    have hvmem := (List.mem_filter.mp hv).1
    have hvorp := (List.mem_filter.mp hv).2
    have hvu : v = u := List.inj_on_of_nodup_map hnd hvmem hu hvid
    rw [← hvu]
    exact hvorp
  · intro horp
    have : u.id ∈ (db.uploads.filter (isOrphan now)).map UploadSession.id :=
      List.mem_map.mpr ⟨u, List.mem_filter.mpr ⟨hu, horp⟩, rfl⟩
    simpa using this

/-- C7: one cleanup sweep (with unique session ids) reports as its
count exactly the number of `UPLOADING`-and-older-than-24h sessions;
every other session keeps its row, all its chunk rows, its scratch file
and its file contents; every orphan loses its row, its chunk rows and
its scratch file; and the kept sessions plus the count add up to the
original table size. -/
theorem cleanup_sweep (now : Nat) (db : Db)
    (hnd : (db.uploads.map UploadSession.id).Nodup) :
    ((cleanupHandler now db).1 = (db.uploads.filter (isOrphan now)).length) ∧
    (∀ u ∈ db.uploads, isOrphan now u = false →
        u ∈ (cleanupHandler now db).2.uploads ∧
        (∀ c ∈ db.chunks, c.uploadId = u.id → c ∈ (cleanupHandler now db).2.chunks) ∧
        (u.id ∈ db.scratch → u.id ∈ (cleanupHandler now db).2.scratch) ∧
        (cleanupHandler now db).2.content u.id = db.content u.id) ∧
    (∀ u ∈ db.uploads, isOrphan now u = true →
        (∀ v ∈ (cleanupHandler now db).2.uploads, v.id ≠ u.id) ∧
        (∀ c ∈ (cleanupHandler now db).2.chunks, c.uploadId ≠ u.id) ∧
        u.id ∉ (cleanupHandler now db).2.scratch) ∧
    ((cleanupHandler now db).2.uploads.length + (cleanupHandler now db).1 =
      db.uploads.length) := by
  refine ⟨rfl, ?_, ?_, ?_⟩
  · intro u hu horp
    refine ⟨?_, ?_, ?_, ?_⟩
    · exact List.mem_filter.mpr ⟨hu, by rw [mem_orphanIds_iff now db hnd u hu, horp]; rfl⟩
    · intro c hc hcid
      refine List.mem_filter.mpr ⟨hc, ?_⟩
      rw [hcid, mem_orphanIds_iff now db hnd u hu, horp]
      rfl
    · intro hs
      refine List.mem_filter.mpr ⟨hs, ?_⟩
      rw [mem_orphanIds_iff now db hnd u hu, horp]
      rfl
    · show (if ((db.uploads.filter (isOrphan now)).map UploadSession.id).contains u.id
          then emptyFile else db.content u.id) = db.content u.id
      rw [mem_orphanIds_iff now db hnd u hu, horp]
      rfl
  · intro u hu horp
    refine ⟨?_, ?_, ?_⟩
    · intro v hv hvid
      have hvcon := (List.mem_filter.mp hv).2
      rw [hvid, mem_orphanIds_iff now db hnd u hu, horp] at hvcon
      simp at hvcon
    · intro c hc hcid
      have hccon := (List.mem_filter.mp hc).2
      rw [hcid, mem_orphanIds_iff now db hnd u hu, horp] at hccon
      simp at hccon
    · intro hs
      have hscon := (List.mem_filter.mp hs).2
      rw [mem_orphanIds_iff now db hnd u hu, horp] at hscon
      simp at hscon
  · show (db.uploads.filter (fun v =>
        !(((db.uploads.filter (isOrphan now)).map UploadSession.id).contains v.id))).length +
        (db.uploads.filter (isOrphan now)).length = db.uploads.length
    rw [List.filter_congr (fun v hv => by
      rw [mem_orphanIds_iff now db hnd v hv])]
    exact length_filter_not_add db.uploads (isOrphan now)

theorem cleanup_sweep_witness :
    ((upDb.uploads.map UploadSession.id).Nodup) ∧
    (cleanupHandler (ORPHAN_AGE_MS + 4) upDb).1 = 0 ∧
    ((⟨0, "a.zip", 100, 1, Status.UPLOADING, none, 5⟩ : UploadSession) ∈
      (cleanupHandler (ORPHAN_AGE_MS + 4) upDb).2.uploads) :=
  ⟨by decide,
   by rw [(cleanup_sweep (ORPHAN_AGE_MS + 4) upDb (by decide)).1]; rfl,
   ((cleanup_sweep (ORPHAN_AGE_MS + 4) upDb (by decide)).2.1
      ⟨0, "a.zip", 100, 1, Status.UPLOADING, none, 5⟩ (by decide) (by decide)).1⟩

/-! ## C4: handshake idempotence and the resume set -/

/-- The chunk handler never touches the session table. -/
theorem chunkHandler_uploads_frame (uI cI : Option Nat) (data : Option (List Nat))
    (db : Db) : (chunkHandler uI cI data db).2.uploads = db.uploads := by
  rcases uI with _ | uId <;> rcases cI with _ | cIdx <;> rcases data with _ | bytes <;> rfl

/-- Nor does any sequence of chunk-accept calls. -/
theorem chunkCalls_uploads_frame
    (calls : List (Option Nat × Option Nat × Option (List Nat))) (db : Db) :
    (calls.foldl (fun d c => (chunkHandler c.1 c.2.1 c.2.2 d).2) db).uploads =
      db.uploads := by
  induction calls generalizing db with
  | nil => rfl
  | cons c t ih => rw [List.foldl_cons, ih, chunkHandler_uploads_frame]

/-- Membership in the handshake's `existingChunks` list is exactly
"a `COMPLETED` chunk row with this index exists for the session". -/
theorem mem_completedIdx (chunks : List ChunkRec) (uploadId : Nat) (i : Nat) :
    i ∈ completedIdx chunks uploadId ↔
      ∃ c ∈ chunks, c.uploadId = uploadId ∧ c.chunkIndex = i ∧
        c.status = ChunkDbStatus.COMPLETED := by
  unfold completedIdx
  constructor
  · intro h
    obtain ⟨c, hc, hci⟩ := List.mem_map.mp h
    have hcm := (List.mem_filter.mp hc).1
    have hcp := (List.mem_filter.mp hc).2
    simp only [decide_eq_true_eq] at hcp
    exact ⟨c, hcm, hcp.1, hci, hcp.2⟩
  · rintro ⟨c, hcm, hc1, hc2, hc3⟩
    exact List.mem_map.mpr ⟨c, List.mem_filter.mpr ⟨hcm, by simp [hc1, hc3]⟩, hc2⟩

/-- `initFind` reads only the session table. -/
theorem initFind_congr (f : String) (sz : Nat) (dbA dbB : Db)
    (h : dbA.uploads = dbB.uploads) : initFind f sz dbA = initFind f sz dbB := by
  unfold initFind
  rw [h]

/-- Analysis of a successful handshake: the arguments were truthy, the
chunk table is unchanged, the returned resume set is the `COMPLETED`
index list of the returned session in the post-state, and the
post-state's `findFirst` locates a matching `UPLOADING` session with
the returned id. -/
theorem initHandler_ok (b : InitBody) (now : Nat) (db : Db) (id1 : Nat)
    (r1 : List Nat) (db1 : Db)
    (h : initHandler b now db = (InitResp.ok id1 r1, db1)) :
    (truthyStr b.filename && truthyNat b.totalSize && truthyNat b.totalChunks) = true ∧
    db1.chunks = db.chunks ∧
    r1 = completedIdx db1.chunks id1 ∧
    ∃ u1, initFind (b.filename.getD "") (b.totalSize.getD 0) db1 = some u1 ∧
      u1.id = id1 := by
  unfold initHandler at h
  by_cases hv : (truthyStr b.filename && truthyNat b.totalSize && truthyNat b.totalChunks) = true
  · rw [if_pos hv] at h
    cases hfind : initFind (b.filename.getD "") (b.totalSize.getD 0) db with
    | some u =>
      rw [hfind] at h
      rw [Prod.mk.injEq] at h
      obtain ⟨hresp, hdb⟩ := h
      injection hresp with hid hr
      refine ⟨hv, by rw [← hdb], ?_, u, ?_, hid⟩
      · rw [← hr, ← hdb, hid]
      · rw [← hdb]
        exact hfind
    | none =>
      rw [hfind] at h
      rw [Prod.mk.injEq] at h
      obtain ⟨hresp, hdb⟩ := h
      injection hresp with hid hr
      refine ⟨hv, by rw [← hdb]; rfl, by rw [← hr, ← hdb, hid], ?_⟩
      refine Exists.intro (⟨db.nextId, b.filename.getD "", b.totalSize.getD 0,
        b.totalChunks.getD 0, Status.UPLOADING, none, now⟩ : UploadSession) ⟨?_, hid⟩
      rw [← hdb]
      show (db.uploads ++
        [(⟨db.nextId, b.filename.getD "", b.totalSize.getD 0, b.totalChunks.getD 0,
          Status.UPLOADING, none, now⟩ : UploadSession)]).find?
        (matchesInit (b.filename.getD "") (b.totalSize.getD 0)) = _
      rw [List.find?_append]
      unfold initFind at hfind
      rw [hfind]
      simp [matchesInit]
  · rw [if_neg hv] at h
    rw [Prod.mk.injEq] at h
    obtain ⟨hresp, hdb⟩ := h
    exact absurd hresp (by simp)

/-- C4: (first part) two sequential handshakes with identical arguments
while the matched session has no completed chunk return the same
session id and an empty resume set; (second part) after any sequence of
chunk-accept calls, a handshake with the same arguments still returns
the same session id, together with exactly the set of chunk indices
whose ChunkRecord status is `COMPLETED`. -/
theorem handshake_idempotent_resume
    (b : InitBody) (now now2 : Nat) (db : Db) (id1 : Nat) (r1 : List Nat) (db1 : Db)
    (h1 : initHandler b now db = (InitResp.ok id1 r1, db1)) :
    (r1 = [] → ∀ id2 r2 db2, initHandler b now2 db1 = (InitResp.ok id2 r2, db2) →
        id1 = id2 ∧ r2 = []) ∧
    (∀ calls : List (Option Nat × Option Nat × Option (List Nat)),
        ∃ r2, initHandler b now2
            (calls.foldl (fun d c => (chunkHandler c.1 c.2.1 c.2.2 d).2) db1) =
          (InitResp.ok id1 r2,
           calls.foldl (fun d c => (chunkHandler c.1 c.2.1 c.2.2 d).2) db1) ∧
        (∀ i, i ∈ r2 ↔
          ∃ c ∈ (calls.foldl (fun d c => (chunkHandler c.1 c.2.1 c.2.2 d).2) db1).chunks,
            c.uploadId = id1 ∧ c.chunkIndex = i ∧
            c.status = ChunkDbStatus.COMPLETED)) := by
  obtain ⟨hv, hch, hr1, u1, hfindu, hidu⟩ := initHandler_ok b now db id1 r1 db1 h1
  have h2' : initHandler b now2 db1 =
      (InitResp.ok u1.id (completedIdx db1.chunks u1.id), db1) := by
    unfold initHandler
    rw [if_pos hv, hfindu]
  constructor
  · intro hr10 id2 r2 db2 h2
    rw [h2'] at h2
    rw [Prod.mk.injEq] at h2
    obtain ⟨hresp, hdb⟩ := h2
    injection hresp with ha hb
    constructor
    · rw [← ha, hidu]
    · rw [← hb, hidu, ← hr1, hr10]
  · intro calls
    have hup : (calls.foldl (fun d c => (chunkHandler c.1 c.2.1 c.2.2 d).2) db1).uploads =
        db1.uploads := chunkCalls_uploads_frame calls db1
    have hfind2 : initFind (b.filename.getD "") (b.totalSize.getD 0)
        (calls.foldl (fun d c => (chunkHandler c.1 c.2.1 c.2.2 d).2) db1) = some u1 := by
      rw [initFind_congr _ _ _ db1 hup]
      exact hfindu
    refine ⟨completedIdx
        (calls.foldl (fun d c => (chunkHandler c.1 c.2.1 c.2.2 d).2) db1).chunks id1,
      ?_, ?_⟩
    · unfold initHandler
      rw [if_pos hv, hfind2]
      simp only [hidu]
    · intro i
      exact mem_completedIdx _ id1 i

/-- The handshake body used by the witnesses. -/
def cb : InitBody := ⟨some "a.zip", some 100, some 1⟩

/-- The store after a first handshake `cb` against the empty store. -/
def cdb1 : Db := (initHandler cb 5 emptyDb).2

theorem handshake_idempotent_resume_witness :
    initHandler cb 5 emptyDb = (InitResp.ok 0 [], cdb1) ∧
    (([] : List Nat) = [] ∧ initHandler cb 6 cdb1 = (InitResp.ok 0 [], cdb1)) ∧
    (0 = 0 ∧ ([] : List Nat) = []) :=
  ⟨rfl, ⟨rfl, rfl⟩,
   (handshake_idempotent_resume cb 5 6 emptyDb 0 [] cdb1 rfl).1 rfl 0 [] cdb1 rfl⟩

/-! ## C3: retry exhaustion on the client -/

/-- A busy worker's chunk is currently marked `UPLOADING`. -/
def WInv (w : WState) (cs : ClientState) : Prop :=
  ∀ i r, w = WState.busy i r → cs.chunks i = CStat.UPLOADING

/-- Two workers are never busy with the same chunk. -/
def WDistinct (a b : WState) : Prop :=
  ∀ i r j r2, a = WState.busy i r → b = WState.busy j r2 → i ≠ j

/-- Queue sanity: no duplicate indices, and every queued chunk is still
`PENDING`. -/
def QInv (cs : ClientState) : Prop :=
  cs.queue.Nodup ∧ ∀ i ∈ cs.queue, cs.chunks i = CStat.PENDING

/-- The full worker-pool invariant. -/
def SysInv (s : Sys) : Prop :=
  WInv s.w0 s.cs ∧ WInv s.w1 s.cs ∧ WInv s.w2 s.cs ∧ QInv s.cs ∧
  WDistinct s.w0 s.w1 ∧ WDistinct s.w0 s.w2 ∧ WDistinct s.w1 s.w2

theorem winv_done (cs : ClientState) : WInv WState.done cs := by
  intro i r h
  simp at h

theorem winv_idle (cs : ClientState) : WInv WState.idle cs := by
  intro i r h
  simp at h

theorem wdistinct_done_left (b : WState) : WDistinct WState.done b := by
  intro i r j r2 h
  simp at h

theorem wdistinct_done_right (a : WState) : WDistinct a WState.done := by
  intro i r j r2 _ h
  simp at h

theorem wdistinct_idle_left (b : WState) : WDistinct WState.idle b := by
  intro i r j r2 h
  simp at h

theorem wdistinct_idle_right (a : WState) : WDistinct a WState.idle := by
  intro i r j r2 _ h
  simp at h

/-- One worker micro-step preserves its own `WInv` and the queue
invariant. -/
theorem stepWorker_self (tr : Nat → Nat → Bool) (w : WState) (cs : ClientState)
    (hq : QInv cs) (hw : WInv w cs) :
    WInv (stepWorker tr w cs).1 (stepWorker tr w cs).2 ∧
    QInv (stepWorker tr w cs).2 := by
  cases w with
  | done => exact ⟨winv_done cs, hq⟩
  | idle =>
    simp only [stepWorker]
    by_cases hab : cs.aborted = true
    · rw [if_pos hab]
      exact ⟨winv_done cs, hq⟩
    · rw [if_neg hab]
      cases hqe : cs.queue with
      | nil => exact ⟨winv_done cs, hq⟩
      | cons i rest =>
        constructor
        · intro j r hj
          simp only at hj
          injection hj with hji _
          rw [← hji]
          exact Function.update_same i CStat.UPLOADING cs.chunks
        · constructor
          · have := hq.1
            rw [hqe] at this
            exact this.of_cons
          · intro k hk
            simp only at hk
            have hkr : k ∈ rest := hk
            have hknotin : i ∉ rest := by
              have := hq.1
              rw [hqe] at this
              exact (List.nodup_cons.mp this).1
            have hki : k ≠ i := fun he => hknotin (he ▸ hkr)
            show Function.update cs.chunks i CStat.UPLOADING k = CStat.PENDING
            rw [Function.update_noteq hki]
            exact hq.2 k (by rw [hqe]; exact List.mem_cons_of_mem i hkr)
  | busy i r =>
    simp only [stepWorker]
    have hui : cs.chunks i = CStat.UPLOADING := hw i r rfl
    by_cases htr : tr i (TOTAL_ATTEMPTS - r) = true
    · rw [if_pos htr]
      refine ⟨winv_idle _, hq.1, ?_⟩
      intro k hk
      have hki : k ≠ i := by
        intro he
        have hp := hq.2 k hk
        rw [he, hui] at hp
        simp at hp
      show Function.update cs.chunks i CStat.SUCCESS k = CStat.PENDING
      rw [Function.update_noteq hki]
      exact hq.2 k hk
    · rw [if_neg htr]
      by_cases hr1 : r ≤ 1
      · rw [if_pos hr1]
        refine ⟨winv_idle _, hq.1, ?_⟩
        intro k hk
        have hki : k ≠ i := by
          intro he
          have hp := hq.2 k hk
          rw [he, hui] at hp
          simp at hp
        show Function.update cs.chunks i CStat.ERROR k = CStat.PENDING
        rw [Function.update_noteq hki]
        exact hq.2 k hk
      · rw [if_neg hr1]
        refine ⟨?_, hq⟩
        intro j r2 hj
        injection hj with hji _
        rw [← hji]
        exact hui

/-- One worker micro-step preserves the other workers' invariants and
the pairwise distinctness. -/
theorem stepWorker_other (tr : Nat → Nat → Bool) (w v : WState) (cs : ClientState)
    (hq : QInv cs) (hw : WInv w cs) (hv : WInv v cs)
    (hd : WDistinct w v) :
    WInv v (stepWorker tr w cs).2 ∧
    WDistinct (stepWorker tr w cs).1 v ∧ WDistinct v (stepWorker tr w cs).1 := by
  cases w with
  | done => exact ⟨hv, wdistinct_done_left v, wdistinct_done_right v⟩
  | idle =>
    simp only [stepWorker]
    by_cases hab : cs.aborted = true
    · rw [if_pos hab]
      exact ⟨hv, wdistinct_done_left v, wdistinct_done_right v⟩
    · rw [if_neg hab]
      cases hqe : cs.queue with
      | nil => exact ⟨hv, wdistinct_done_left v, wdistinct_done_right v⟩
      | cons i rest =>
        have hip : cs.chunks i = CStat.PENDING :=
          hq.2 i (by rw [hqe]; exact List.mem_cons_self i rest)
        have hvne : ∀ j r2, v = WState.busy j r2 → j ≠ i := by
          intro j r2 hj he
          have := hv j r2 hj
          rw [he, hip] at this
          simp at this
        refine ⟨?_, ?_, ?_⟩
        · intro j r2 hj
          show Function.update cs.chunks i CStat.UPLOADING j = CStat.UPLOADING
          rw [Function.update_noteq (hvne j r2 hj)]
          exact hv j r2 hj
        · intro a ra j r2 ha hj
          simp only at ha
          injection ha with hai _
          rw [← hai]
          exact fun he => hvne j r2 hj (he.symm)
        · intro j r2 a ra hj ha
          simp only at ha
          injection ha with hai _
          rw [← hai]
          exact hvne j r2 hj
  | busy i r =>
    simp only [stepWorker]
    have hui : cs.chunks i = CStat.UPLOADING := hw i r rfl
    have hvne : ∀ j r2, v = WState.busy j r2 → j ≠ i := by
      intro j r2 hj
      exact fun he => (hd i r j r2 rfl hj) he.symm
    by_cases htr : tr i (TOTAL_ATTEMPTS - r) = true
    · rw [if_pos htr]
      refine ⟨?_, wdistinct_idle_left v, wdistinct_idle_right v⟩
      intro j r2 hj
      show Function.update cs.chunks i CStat.SUCCESS j = CStat.UPLOADING
      rw [Function.update_noteq (hvne j r2 hj)]
      exact hv j r2 hj
    · rw [if_neg htr]
      by_cases hr1 : r ≤ 1
      · rw [if_pos hr1]
        refine ⟨?_, wdistinct_idle_left v, wdistinct_idle_right v⟩
        intro j r2 hj
        show Function.update cs.chunks i CStat.ERROR j = CStat.UPLOADING
        rw [Function.update_noteq (hvne j r2 hj)]
        exact hv j r2 hj
      · rw [if_neg hr1]
        refine ⟨hv, ?_, ?_⟩
        · intro a ra j r2 ha hj
          injection ha with hai _
          rw [← hai]
          exact fun he => hvne j r2 hj he.symm
        · intro j r2 a ra hj ha
          injection ha with hai _
          rw [← hai]
          exact hvne j r2 hj

/-- `WDistinct` is symmetric. -/
theorem wdistinct_symm {a b : WState} (h : WDistinct a b) : WDistinct b a := by
  intro i r j r2 hb ha
  exact (h j r2 i r ha hb).symm

/-- The pool invariant is preserved by any worker's micro-step. -/
theorem stepSys_inv (tr : Nat → Nat → Bool) (s : Sys) (w : Nat) (h : SysInv s) :
    SysInv (stepSys tr s w) := by
  obtain ⟨h0, h1, h2, hq, d01, d02, d12⟩ := h
  rcases w with _ | _ | _ | w
  · have hs := stepWorker_self tr s.w0 s.cs hq h0
    have ho1 := stepWorker_other tr s.w0 s.w1 s.cs hq h0 h1 d01
    have ho2 := stepWorker_other tr s.w0 s.w2 s.cs hq h0 h2 d02
    exact ⟨hs.1, ho1.1, ho2.1, hs.2, ho1.2.1, ho2.2.1, d12⟩
  · have hs := stepWorker_self tr s.w1 s.cs hq h1
    have ho0 := stepWorker_other tr s.w1 s.w0 s.cs hq h1 h0 (wdistinct_symm d01)
    have ho2 := stepWorker_other tr s.w1 s.w2 s.cs hq h1 h2 d12
    exact ⟨ho0.1, hs.1, ho2.1, hs.2, ho0.2.2, d02, ho2.2.1⟩
  · have hs := stepWorker_self tr s.w2 s.cs hq h2
    have ho0 := stepWorker_other tr s.w2 s.w0 s.cs hq h2 h0 (wdistinct_symm d02)
    have ho1 := stepWorker_other tr s.w2 s.w1 s.cs hq h2 h1 (wdistinct_symm d12)
    exact ⟨ho0.1, ho1.1, hs.1, hs.2, d01, ho0.2.2, ho1.2.2⟩
  · exact ⟨h0, h1, h2, hq, d01, d02, d12⟩

/-- A `SUCCESS` chunk survives any single worker micro-step. -/
theorem stepWorker_success_pres (tr : Nat → Nat → Bool) (w : WState)
    (cs : ClientState) (k : Nat) (hq : QInv cs) (hw : WInv w cs)
    (hk : cs.chunks k = CStat.SUCCESS) :
    (stepWorker tr w cs).2.chunks k = CStat.SUCCESS := by
  cases w with
  | done => exact hk
  | idle =>
    simp only [stepWorker]
    by_cases hab : cs.aborted = true
    · rw [if_pos hab]
      exact hk
    · rw [if_neg hab]
      cases hqe : cs.queue with
      | nil => exact hk
      | cons i rest =>
        have hip : cs.chunks i = CStat.PENDING :=
          hq.2 i (by rw [hqe]; exact List.mem_cons_self i rest)
        have hki : k ≠ i := by
          intro he
          rw [he, hip] at hk
          simp at hk
        show Function.update cs.chunks i CStat.UPLOADING k = CStat.SUCCESS
        rw [Function.update_noteq hki]
        exact hk
  | busy i r =>
    simp only [stepWorker]
    have hui : cs.chunks i = CStat.UPLOADING := hw i r rfl
    have hki : k ≠ i := by
      intro he
      rw [he, hui] at hk
      simp at hk
    by_cases htr : tr i (TOTAL_ATTEMPTS - r) = true
    · rw [if_pos htr]
      show Function.update cs.chunks i CStat.SUCCESS k = CStat.SUCCESS
      rw [Function.update_noteq hki]
      exact hk
    · rw [if_neg htr]
      by_cases hr1 : r ≤ 1
      · rw [if_pos hr1]
        show Function.update cs.chunks i CStat.ERROR k = CStat.SUCCESS
        rw [Function.update_noteq hki]
        exact hk
      · rw [if_neg hr1]
        exact hk

/-- Once the abort flag is set, a `PENDING` chunk stays `PENDING`: no
worker dispatches new work. -/
theorem stepWorker_pending_abort (tr : Nat → Nat → Bool) (w : WState)
    (cs : ClientState) (k : Nat) (hw : WInv w cs)
    (hab : cs.aborted = true) (hk : cs.chunks k = CStat.PENDING) :
    (stepWorker tr w cs).2.chunks k = CStat.PENDING := by
  cases w with
  | done => exact hk
  | idle =>
    simp only [stepWorker]
    rw [if_pos hab]
    exact hk
  | busy i r =>
    simp only [stepWorker]
    have hui : cs.chunks i = CStat.UPLOADING := hw i r rfl
    have hki : k ≠ i := by
      intro he
      rw [he, hui] at hk
      simp at hk
    by_cases htr : tr i (TOTAL_ATTEMPTS - r) = true
    · rw [if_pos htr]
      show Function.update cs.chunks i CStat.SUCCESS k = CStat.PENDING
      rw [Function.update_noteq hki]
      exact hk
    · rw [if_neg htr]
      by_cases hr1 : r ≤ 1
      · rw [if_pos hr1]
        show Function.update cs.chunks i CStat.ERROR k = CStat.PENDING
        rw [Function.update_noteq hki]
        exact hk
      · rw [if_neg hr1]
        exact hk

/-- The abort flag is never cleared. -/
theorem stepWorker_abort_mono (tr : Nat → Nat → Bool) (w : WState)
    (cs : ClientState) (hab : cs.aborted = true) :
    (stepWorker tr w cs).2.aborted = true := by
  cases w with
  | done => exact hab
  | idle =>
    simp only [stepWorker]
    rw [if_pos hab]
    exact hab
  | busy i r =>
    simp only [stepWorker]
    by_cases htr : tr i (TOTAL_ATTEMPTS - r) = true
    · rw [if_pos htr]
      exact hab
    · rw [if_neg htr]
      by_cases hr1 : r ≤ 1
      · rw [if_pos hr1]
      · rw [if_neg hr1]
        exact hab

/-- "Some chunk is `ERROR` implies the abort flag is set": the two are
only ever set together. -/
def ErrAbort (cs : ClientState) : Prop :=
  ∀ k, cs.chunks k = CStat.ERROR → cs.aborted = true

theorem stepWorker_err_abort (tr : Nat → Nat → Bool) (w : WState)
    (cs : ClientState) (h : ErrAbort cs) :
    ErrAbort (stepWorker tr w cs).2 := by
  cases w with
  | done => exact h
  | idle =>
    simp only [stepWorker]
    by_cases hab : cs.aborted = true
    · rw [if_pos hab]
      exact h
    · rw [if_neg hab]
      cases hqe : cs.queue with
      | nil => exact h
      | cons i rest =>
        intro k hk
        show cs.aborted = true
        have hk2 : (Function.update cs.chunks i CStat.UPLOADING) k = CStat.ERROR := hk
        by_cases hki : k = i
        · rw [hki, Function.update_same] at hk2
          simp at hk2
        · rw [Function.update_noteq hki] at hk2
          exact h k hk2
  | busy i r =>
    simp only [stepWorker]
    by_cases htr : tr i (TOTAL_ATTEMPTS - r) = true
    · rw [if_pos htr]
      intro k hk
      show cs.aborted = true
      have hk2 : (Function.update cs.chunks i CStat.SUCCESS) k = CStat.ERROR := hk
      by_cases hki : k = i
      · rw [hki, Function.update_same] at hk2
        simp at hk2
      · rw [Function.update_noteq hki] at hk2
        exact h k hk2
    · rw [if_neg htr]
      by_cases hr1 : r ≤ 1
      · rw [if_pos hr1]
        intro k _
        rfl
      · rw [if_neg hr1]
        exact h

/-- Every overall status ever reported during the worker phase is
`UPLOADING`. -/
def RepUp (cs : ClientState) : Prop :=
  ∀ t ∈ cs.reports, t = TStat.UPLOADING

theorem stepWorker_reports (tr : Nat → Nat → Bool) (w : WState)
    (cs : ClientState) (h : RepUp cs) :
    RepUp (stepWorker tr w cs).2 := by
  have happ : ∀ t ∈ cs.reports ++ [TStat.UPLOADING], t = TStat.UPLOADING := by
    intro t ht
    rcases List.mem_append.mp ht with h1 | h1
    · exact h t h1
    · simpa using h1
  cases w with
  | done => exact h
  | idle =>
    simp only [stepWorker]
    by_cases hab : cs.aborted = true
    · rw [if_pos hab]
      exact h
    · rw [if_neg hab]
      cases hqe : cs.queue with
      | nil => exact h
      | cons i rest => exact happ
  | busy i r =>
    simp only [stepWorker]
    by_cases htr : tr i (TOTAL_ATTEMPTS - r) = true
    · rw [if_pos htr]
      exact happ
    · rw [if_neg htr]
      by_cases hr1 : r ≤ 1
      · rw [if_pos hr1]
        exact happ
      · rw [if_neg hr1]
        exact h

/-- The report trace never becomes empty. -/
theorem stepWorker_reports_ne (tr : Nat → Nat → Bool) (w : WState)
    (cs : ClientState) (h : cs.reports ≠ []) :
    (stepWorker tr w cs).2.reports ≠ [] := by
  have happ : cs.reports ++ [TStat.UPLOADING] ≠ [] := by simp
  cases w with
  | done => exact h
  | idle =>
    simp only [stepWorker]
    by_cases hab : cs.aborted = true
    · rw [if_pos hab]
      exact h
    · rw [if_neg hab]
      cases hqe : cs.queue with
      | nil => exact h
      | cons i rest => exact happ
  | busy i r =>
    simp only [stepWorker]
    by_cases htr : tr i (TOTAL_ATTEMPTS - r) = true
    · rw [if_pos htr]
      exact happ
    · rw [if_neg htr]
      by_cases hr1 : r ≤ 1
      · rw [if_pos hr1]
        exact happ
      · rw [if_neg hr1]
        exact h

/-- The worker phase never invokes finalize. -/
theorem stepWorker_finalized (tr : Nat → Nat → Bool) (w : WState)
    (cs : ClientState) : (stepWorker tr w cs).2.finalized = cs.finalized := by
  cases w with
  | done => rfl
  | idle =>
    simp only [stepWorker]
    by_cases hab : cs.aborted = true
    · rw [if_pos hab]
    · rw [if_neg hab]
      cases hqe : cs.queue with
      | nil => rfl
      | cons i rest => rfl
  | busy i r =>
    simp only [stepWorker]
    by_cases htr : tr i (TOTAL_ATTEMPTS - r) = true
    · rw [if_pos htr]
    · rw [if_neg htr]
      by_cases hr1 : r ≤ 1
      · rw [if_pos hr1]
      · rw [if_neg hr1]

theorem stepSys_success (tr : Nat → Nat → Bool) (s : Sys) (w k : Nat)
    (h : SysInv s) (hk : s.cs.chunks k = CStat.SUCCESS) :
    (stepSys tr s w).cs.chunks k = CStat.SUCCESS := by
  obtain ⟨h0, h1, h2, hq, _, _, _⟩ := h
  rcases w with _ | _ | _ | w
  · exact stepWorker_success_pres tr s.w0 s.cs k hq h0 hk
  · exact stepWorker_success_pres tr s.w1 s.cs k hq h1 hk
  · exact stepWorker_success_pres tr s.w2 s.cs k hq h2 hk
  · exact hk

theorem stepSys_pending (tr : Nat → Nat → Bool) (s : Sys) (w k : Nat)
    (h : SysInv s) (hab : s.cs.aborted = true)
    (hk : s.cs.chunks k = CStat.PENDING) :
    (stepSys tr s w).cs.chunks k = CStat.PENDING := by
  obtain ⟨h0, h1, h2, _, _, _, _⟩ := h
  rcases w with _ | _ | _ | w
  · exact stepWorker_pending_abort tr s.w0 s.cs k h0 hab hk
  · exact stepWorker_pending_abort tr s.w1 s.cs k h1 hab hk
  · exact stepWorker_pending_abort tr s.w2 s.cs k h2 hab hk
  · exact hk

theorem stepSys_abort_mono (tr : Nat → Nat → Bool) (s : Sys) (w : Nat)
    (hab : s.cs.aborted = true) : (stepSys tr s w).cs.aborted = true := by
  rcases w with _ | _ | _ | w
  · exact stepWorker_abort_mono tr s.w0 s.cs hab
  · exact stepWorker_abort_mono tr s.w1 s.cs hab
  · exact stepWorker_abort_mono tr s.w2 s.cs hab
  · exact hab

theorem stepSys_err_abort (tr : Nat → Nat → Bool) (s : Sys) (w : Nat)
    (h : ErrAbort s.cs) : ErrAbort (stepSys tr s w).cs := by
  rcases w with _ | _ | _ | w
  · exact stepWorker_err_abort tr s.w0 s.cs h
  · exact stepWorker_err_abort tr s.w1 s.cs h
  · exact stepWorker_err_abort tr s.w2 s.cs h
  · exact h

theorem stepSys_reports (tr : Nat → Nat → Bool) (s : Sys) (w : Nat)
    (h : RepUp s.cs) : RepUp (stepSys tr s w).cs := by
  rcases w with _ | _ | _ | w
  · exact stepWorker_reports tr s.w0 s.cs h
  · exact stepWorker_reports tr s.w1 s.cs h
  · exact stepWorker_reports tr s.w2 s.cs h
  · exact h

theorem stepSys_reports_ne (tr : Nat → Nat → Bool) (s : Sys) (w : Nat)
    (h : s.cs.reports ≠ []) : (stepSys tr s w).cs.reports ≠ [] := by
  rcases w with _ | _ | _ | w
  · exact stepWorker_reports_ne tr s.w0 s.cs h
  · exact stepWorker_reports_ne tr s.w1 s.cs h
  · exact stepWorker_reports_ne tr s.w2 s.cs h
  · exact h

theorem stepSys_finalized (tr : Nat → Nat → Bool) (s : Sys) (w : Nat) :
    (stepSys tr s w).cs.finalized = s.cs.finalized := by
  rcases w with _ | _ | _ | w
  · exact stepWorker_finalized tr s.w0 s.cs
  · exact stepWorker_finalized tr s.w1 s.cs
  · exact stepWorker_finalized tr s.w2 s.cs
  · rfl

theorem runSys_inv (tr : Nat → Nat → Bool) (s : Sys) (sched : List Nat)
    (h : SysInv s) : SysInv (runSys tr s sched) := by
  induction sched generalizing s with
  | nil => exact h
  | cons a t ih => exact ih (stepSys tr s a) (stepSys_inv tr s a h)

theorem runSys_success (tr : Nat → Nat → Bool) (s : Sys) (sched : List Nat)
    (k : Nat) (h : SysInv s) (hk : s.cs.chunks k = CStat.SUCCESS) :
    (runSys tr s sched).cs.chunks k = CStat.SUCCESS := by
  induction sched generalizing s with
  | nil => exact hk
  | cons a t ih =>
    exact ih (stepSys tr s a) (stepSys_inv tr s a h) (stepSys_success tr s a k h hk)

theorem runSys_abort_mono (tr : Nat → Nat → Bool) (s : Sys) (sched : List Nat)
    (hab : s.cs.aborted = true) : (runSys tr s sched).cs.aborted = true := by
  induction sched generalizing s with
  | nil => exact hab
  | cons a t ih => exact ih (stepSys tr s a) (stepSys_abort_mono tr s a hab)

theorem runSys_pending (tr : Nat → Nat → Bool) (s : Sys) (sched : List Nat)
    (k : Nat) (h : SysInv s) (hab : s.cs.aborted = true)
    (hk : s.cs.chunks k = CStat.PENDING) :
    (runSys tr s sched).cs.chunks k = CStat.PENDING := by
  induction sched generalizing s with
  | nil => exact hk
  | cons a t ih =>
    exact ih (stepSys tr s a) (stepSys_inv tr s a h)
      (stepSys_abort_mono tr s a hab) (stepSys_pending tr s a k h hab hk)

theorem runSys_err_abort (tr : Nat → Nat → Bool) (s : Sys) (sched : List Nat)
    (h : ErrAbort s.cs) : ErrAbort (runSys tr s sched).cs := by
  induction sched generalizing s with
  | nil => exact h
  | cons a t ih => exact ih (stepSys tr s a) (stepSys_err_abort tr s a h)

theorem runSys_reports (tr : Nat → Nat → Bool) (s : Sys) (sched : List Nat)
    (h : RepUp s.cs) : RepUp (runSys tr s sched).cs := by
  induction sched generalizing s with
  | nil => exact h
  | cons a t ih => exact ih (stepSys tr s a) (stepSys_reports tr s a h)

theorem runSys_reports_ne (tr : Nat → Nat → Bool) (s : Sys) (sched : List Nat)
    (h : s.cs.reports ≠ []) : (runSys tr s sched).cs.reports ≠ [] := by
  induction sched generalizing s with
  | nil => exact h
  | cons a t ih => exact ih (stepSys tr s a) (stepSys_reports_ne tr s a h)

theorem runSys_finalized (tr : Nat → Nat → Bool) (s : Sys) (sched : List Nat) :
    (runSys tr s sched).cs.finalized = s.cs.finalized := by
  induction sched generalizing s with
  | nil => rfl
  | cons a t ih =>
    rw [show runSys tr s (a :: t) = runSys tr (stepSys tr s a) t from rfl,
      ih (stepSys tr s a), stepSys_finalized tr s a]

theorem initSys_inv (n : Nat) (resume : List Nat) : SysInv (initSys n resume) := by
  refine ⟨winv_idle _, winv_idle _, winv_idle _, ⟨?_, ?_⟩,
    wdistinct_idle_left _, wdistinct_idle_left _, wdistinct_idle_left _⟩
  · exact (List.nodup_range n).filter _
  · intro i hi
    have hpred := (List.mem_filter.mp hi).2
    have hne : initChunks n resume i ≠ CStat.SUCCESS := by
      intro he
      rw [he] at hpred
      simp at hpred
    by_cases hc : (i < n ∧ i ∈ resume)
    · exact absurd (by unfold initChunks; rw [if_pos hc]) hne
    · show initChunks n resume i = CStat.PENDING
      unfold initChunks
      rw [if_neg hc]

theorem initSys_err (n : Nat) (resume : List Nat) : ErrAbort (initSys n resume).cs := by
  intro k hk
  have hk2 : initChunks n resume k = CStat.ERROR := hk
  unfold initChunks at hk2
  split at hk2 <;> simp at hk2

theorem initSys_reports (n : Nat) (resume : List Nat) :
    RepUp (initSys n resume).cs := by
  intro t ht
  have ht2 : t ∈ [TStat.UPLOADING] := ht
  simpa using ht2

theorem initSys_reports_ne (n : Nat) (resume : List Nat) :
    (initSys n resume).cs.reports ≠ [] := by
  have h : ([TStat.UPLOADING] : List TStat) ≠ [] := by simp
  exact h

theorem finishRun_aborted (s : Sys) (hab : s.cs.aborted = true) :
    finishRun s = s := by
  have hcond : (!s.cs.aborted && allSuccess s.cs) = false := by
    rw [hab]
    rfl
  unfold finishRun
  rw [hcond]
  rfl

theorem finishRun_chunks (s : Sys) : (finishRun s).cs.chunks = s.cs.chunks := by
  unfold finishRun
  split <;> rfl

/-- If every reported status is `UPLOADING` and at least one was
reported, the last reported status is `UPLOADING`. -/
theorem last_uploading (l : List TStat) (hne : l ≠ [])
    (h : ∀ t ∈ l, t = TStat.UPLOADING) :
    l.getLast? = some TStat.UPLOADING := by
  induction l with
  | nil => exact absurd rfl hne
  | cons a t ih =>
    cases ht : t with
    | nil =>
      have ha := h a (by simp)
      subst ht
      rw [ha]
      rfl
    | cons b t2 =>
      subst ht
      rw [List.getLast?_cons_cons]
      exact ih (by simp) (fun x hx => h x (List.mem_cons_of_mem a hx))

/-- C3 (amended): over every transport oracle and every interleaving
of the three workers, (1) a worker failing its last transport attempt
marks that chunk `ERROR`, sets the cooperative abort flag and exits
`uploadChunk`; (2) any state with an `ERROR` chunk has the abort flag
set; (3) once the abort flag is set, no `PENDING` chunk is ever
dispatched afterwards; (4) chunks `SUCCESS` from the resume set stay
`SUCCESS` to the very end; (5) if any chunk ends in `ERROR`, finalize
is never invoked; and (6) after an aborted run the last overall status
reported through `onProgress` is `UPLOADING` — not `ERROR`. -/
theorem uploader_retry_exhaustion
    (n : Nat) (resume : List Nat) (tr : Nat → Nat → Bool) (sched : List Nat) :
    (∀ (cs : ClientState) (i : Nat), tr i RETRIES = false →
        (stepWorker tr (WState.busy i 1) cs).2.chunks i = CStat.ERROR ∧
        (stepWorker tr (WState.busy i 1) cs).2.aborted = true ∧
        (stepWorker tr (WState.busy i 1) cs).1 = WState.idle) ∧
    (∀ k, (runSys tr (initSys n resume) sched).cs.chunks k = CStat.ERROR →
        (runSys tr (initSys n resume) sched).cs.aborted = true) ∧
    (∀ sched2 k, (runSys tr (initSys n resume) sched).cs.aborted = true →
        (runSys tr (initSys n resume) sched).cs.chunks k = CStat.PENDING →
        (runSys tr (runSys tr (initSys n resume) sched) sched2).cs.chunks k =
          CStat.PENDING) ∧
    (∀ k, (initSys n resume).cs.chunks k = CStat.SUCCESS →
        (finishRun (runSys tr (initSys n resume) sched)).cs.chunks k =
          CStat.SUCCESS) ∧
    (∀ k, (finishRun (runSys tr (initSys n resume) sched)).cs.chunks k =
          CStat.ERROR →
        (finishRun (runSys tr (initSys n resume) sched)).cs.finalized = false) ∧
    ((runSys tr (initSys n resume) sched).cs.aborted = true →
        (finishRun (runSys tr (initSys n resume) sched)).cs.reports.getLast? =
          some TStat.UPLOADING) := by
  refine ⟨?_, ?_, ?_, ?_, ?_, ?_⟩
  · intro cs i htr
    have htr2 : tr i (TOTAL_ATTEMPTS - 1) = false := htr
    simp only [stepWorker]
    rw [if_neg (by rw [htr2]; simp), if_pos (le_refl 1)]
    exact ⟨Function.update_same i CStat.ERROR cs.chunks, rfl, rfl⟩
  · intro k hk
    exact runSys_err_abort tr (initSys n resume) sched (initSys_err n resume) k hk
  · intro sched2 k hab hk
    exact runSys_pending tr (runSys tr (initSys n resume) sched) sched2 k
      (runSys_inv tr _ sched (initSys_inv n resume)) hab hk
  · intro k hk
    rw [finishRun_chunks]
    exact runSys_success tr (initSys n resume) sched k (initSys_inv n resume) hk
  · intro k hk
    have hk2 := hk
    rw [finishRun_chunks] at hk2
    have hab := runSys_err_abort tr (initSys n resume) sched (initSys_err n resume) k hk2
    rw [finishRun_aborted _ hab, runSys_finalized]
    rfl
  · intro hab
    rw [finishRun_aborted _ hab]
    exact last_uploading _ (runSys_reports_ne tr _ sched (initSys_reports_ne n resume))
      (runSys_reports tr _ sched (initSys_reports n resume))

/-- A complete concrete run: 2 chunks, chunk 0 resumed (`SUCCESS` from
the handshake), transport failing every attempt.  Worker 0 dispatches
chunk 1 and exhausts all 11 attempts; all workers then observe the
abort flag (or the empty queue) and exit. -/
def cexSys : Sys :=
  runSys (fun _ _ => false) (initSys 2 [0]) (List.replicate 13 0 ++ [1, 2])

/-- C3 fails as stated on the final reported status: in the completed
run above, chunk 1 is `ERROR`, the abort flag is set, finalize was
never called and chunk 0 is still `SUCCESS` — but the last overall
status reported through `onProgress` is `UPLOADING`, not `ERROR`:
`uploadChunk` swallows the exhausted-retries rejection, so the
`catch` in `start()` that would report `ERROR` never runs. -/
theorem uploader_retry_exhaustion_counterexample :
    (finishRun cexSys).cs.chunks 1 = CStat.ERROR ∧
    (finishRun cexSys).cs.aborted = true ∧
    (finishRun cexSys).cs.finalized = false ∧
    (finishRun cexSys).cs.chunks 0 = CStat.SUCCESS ∧
    (finishRun cexSys).w0 = WState.done ∧
    (finishRun cexSys).w1 = WState.done ∧
    (finishRun cexSys).w2 = WState.done ∧
    (finishRun cexSys).cs.reports.getLast? = some TStat.UPLOADING ∧
    ¬((finishRun cexSys).cs.reports.getLast? = some TStat.ERROR) := by
  decide

/-- A run with a third, never-dispatched chunk, used to witness the
no-dispatch-after-abort conjunct. -/
def cexSys3 : Sys :=
  runSys (fun _ _ => false) (initSys 3 [0]) (List.replicate 12 0)

theorem uploader_retry_exhaustion_witness :
    ((fun _ _ => false : Nat → Nat → Bool) 1 RETRIES = false ∧
     (stepWorker (fun _ _ => false) (WState.busy 1 1) (initSys 3 [0]).cs).2.chunks 1 =
       CStat.ERROR) ∧
    (cexSys3.cs.chunks 1 = CStat.ERROR ∧ cexSys3.cs.aborted = true) ∧
    (cexSys3.cs.chunks 2 = CStat.PENDING ∧
     (runSys (fun _ _ => false) cexSys3 [1, 2]).cs.chunks 2 = CStat.PENDING) ∧
    ((initSys 3 [0]).cs.chunks 0 = CStat.SUCCESS ∧
     (finishRun cexSys3).cs.chunks 0 = CStat.SUCCESS) ∧
    (finishRun cexSys3).cs.finalized = false ∧
    (finishRun cexSys3).cs.reports.getLast? = some TStat.UPLOADING := by
  have main := uploader_retry_exhaustion 3 [0] (fun _ _ => false) (List.replicate 12 0)
  refine ⟨⟨rfl, (main.1 (initSys 3 [0]).cs 1 rfl).1⟩,
          ⟨by decide, main.2.1 1 (by decide)⟩,
          ⟨by decide, main.2.2.1 [1, 2] 2 (by decide) (by decide)⟩,
          ⟨by decide, main.2.2.2.1 0 (by decide)⟩,
          main.2.2.2.2.1 1 (by decide),
          main.2.2.2.2.2 (by decide)⟩

end Uploader
